import Mathlib

/-!
Verification of the `node-file-storage` wrapper (`src/index.js`).

The JavaScript module is shallowly embedded: JS strings are lists of
characters, buffers are lists of byte values, and the Node filesystem is an
explicit state (association lists from OS-resolved paths to directory modes
and file contents).  Each operation of the `FileStorage` object is a pure
function from the store state and the filesystem state to an updated state,
the value handed to the caller's callback, and a trace of the external
effects (filesystem calls and event emissions) the operation performs.
Asynchronous batch combinators (`Async.each`, `Async.map`) are modelled with
their sequential semantics, completion order being list order.
-/

namespace NodeFileStorage

/-- JS strings, modelled as lists of characters. -/
abbrev Str := List Char

/-- Buffer contents: a sequence of byte values. -/
abbrev Bytes := List Nat

/-- A filesystem path as resolved by the OS: the list of its nonempty
components (duplicate separators collapse, so the literal strings `/a` and
`//a` denote the same node). -/
abbrev Path := List Str

/-- UTF-8 encoding of one character, as performed by `new Buffer(str, 'utf8')`. -/
def utf8EncodeChar (c : Char) : List Nat :=
  let n := c.toNat
  if n < 0x80 then [n]
  else if n < 0x800 then [0xC0 + n / 0x40, 0x80 + n % 0x40]
  else if n < 0x10000 then
    [0xE0 + n / 0x1000, 0x80 + (n / 0x40) % 0x40, 0x80 + n % 0x40]
  else
    [0xF0 + n / 0x40000, 0x80 + (n / 0x1000) % 0x40,
     0x80 + (n / 0x40) % 0x40, 0x80 + n % 0x40]

/-- UTF-8 encoding of a JS string (`new Buffer(contents, 'utf8')`, line 52). -/
def utf8Bytes (s : Str) : Bytes := (s.map utf8EncodeChar).flatten

/-- Error values observable through the callbacks. -/
inductive JsError where
  /-- `new Error("File storage system is not enabled")` (lines 45 and 90). -/
  | notEnabled
  /-- A filesystem error for a missing path (ENOENT). -/
  | enoent (path : Str)
  /-- An arbitrary error value supplied by an external handler. -/
  | custom (tag : Nat)
deriving DecidableEq

/-- The `contents` argument of `saveFile`: a `Buffer` or a string (line 39). -/
inductive Contents where
  | str (s : Str)
  | buf (b : Bytes)
deriving DecidableEq

/-- Lines 51-53: a string argument is converted to a UTF-8 buffer before any
further processing; a buffer is used as given. -/
def toBytes : Contents → Bytes
  | .str s => utf8Bytes s
  | .buf b => b

/-- A `save` listener: receives the filename and contents and reports the
error value (or nothing) that it passes to the completion callback. -/
abbrev SaveHandler := Str → Bytes → Option JsError

/-- A `read` listener: receives the filename and supplies either an error or
the byte contents through the callback it is given. -/
abbrev ReadHandler := Str → Except JsError Bytes

/-- The state of a `FileStorage` object (constructor, lines 12-26): the
`directory` property (null when absent), the internal `_directoryCreated`
flag, and the registered `save` / `read` event listeners (at most one of
each is modelled, matching the `listeners(...).length > 0` checks). -/
structure FileStorage where
  directory : Option Str
  directoryCreated : Bool
  saveHandler : Option SaveHandler
  readHandler : Option ReadHandler

/-- The `directory` property setter (lines 17-20): stores the new value and
resets the `_directoryCreated` flag. -/
def setDirectory (st : FileStorage) (d : Option Str) : FileStorage :=
  FileStorage.mk d false st.saveHandler st.readHandler

/-- `new FileStorage(directory)` (lines 12-26): the fields start null and the
`directory` setter then runs, leaving `_directoryCreated` false. -/
def mkStorage (d : Option Str) : FileStorage :=
  setDirectory (FileStorage.mk none false none none) d

/-- Externally observable actions an operation performs: filesystem calls and
event emissions. -/
inductive Effect where
  | fsExists (path : Str)
  | fsMkdir (path : Str) (mode : Nat)
  | fsWrite (path : Str) (data : Bytes)
  | fsRead (path : Str)
  | emitSave (name : Str) (data : Bytes)
  | emitRead (name : Str)
deriving DecidableEq

/-- `dir.replace(/\\/g, '/')` (line 130): backslashes become forward slashes. -/
def normBS (s : Str) : Str := s.map (fun c => if c = '\\' then '/' else c)

/-- `str.split('/')` as in JS: split on every slash, keeping empty pieces. -/
def splitSlash : Str → List Str
  | [] => [[]]
  | c :: rest =>
    if c = '/' then [] :: splitSlash rest
    else
      match splitSlash rest with
      | [] => [[c]]
      | s :: ss => (c :: s) :: ss

/-- OS path resolution: the nonempty slash-separated components of a path
string (so `/a`, `//a` and `a` all resolve to component list `[a]`). -/
def parsePath (s : Str) : Path := (splitSlash s).filter (fun x => !x.isEmpty)

/-- Association-list lookup keyed by resolved paths. -/
def lookupP {β : Type} (k : Path) : List (Path × β) → Option β
  | [] => none
  | (k', v) :: rest => if k = k' then some v else lookupP k rest

/-- The filesystem state: directories (with their creation mode) and regular
files (with their byte contents), keyed by resolved path. -/
structure FileSystem where
  dirs : List (Path × Nat)
  files : List (Path × Bytes)
deriving DecidableEq

/-- The root directory always exists; other directories when recorded. -/
def FileSystem.dirExists (fs : FileSystem) (p : Path) : Bool :=
  p.isEmpty || (lookupP p fs.dirs).isSome

/-- A path names some node: a directory or a regular file. -/
def FileSystem.nodeExists (fs : FileSystem) (p : Path) : Bool :=
  fs.dirExists p || (lookupP p fs.files).isSome

/-- `fs.existsSync(path)` (line 137). -/
def existsSync (fs : FileSystem) (s : Str) : Bool := fs.nodeExists (parsePath s)

/-- `fs.mkdirSync(path, mode)` (line 138): records the directory. -/
def mkdirSync (fs : FileSystem) (s : Str) (mode : Nat) : FileSystem :=
  FileSystem.mk ((parsePath s, mode) :: fs.dirs) fs.files

/-- `fs.writeFile(path, contents, cb)` (line 68): truncate-or-create write;
fails with ENOENT when the parent directory does not exist. -/
def writeFileFS (fs : FileSystem) (s : Str) (b : Bytes) : FileSystem × Option JsError :=
  let p := parsePath s
  if !p.isEmpty && fs.dirExists p.dropLast then
    (FileSystem.mk fs.dirs ((p, b) :: fs.files), none)
  else
    (fs, some (.enoent s))

/-- `fs.readFile(path, cb)` (line 99): the contents, or ENOENT when absent. -/
def readFileFS (fs : FileSystem) (s : Str) : Except JsError Bytes :=
  match lookupP (parsePath s) fs.files with
  | some b => .ok b
  | none => .error (.enoent s)

/-- The `forEach` body of `checkDirExists` (lines 130-140): rebuild the path
prefix by prefix (a leading empty segment yields `/`), and create any prefix
that does not exist with mode `0o750`. -/
def cdeLoop : List Str → Nat → Str → FileSystem → FileSystem × List Effect
  | [], _, _, fs => (fs, [])
  | seg :: rest, idx, path, fs =>
    let path' :=
      if idx == 0 && seg.isEmpty then ['/']
      else path ++ (if path.isEmpty then [] else ['/']) ++ seg
    if existsSync fs path' then
      let r := cdeLoop rest (idx + 1) path' fs
      (r.1, .fsExists path' :: r.2)
    else
      let r := cdeLoop rest (idx + 1) path' (mkdirSync fs path' 0o750)
      (r.1, .fsExists path' :: .fsMkdir path' 0o750 :: r.2)

/-- `checkDirExists(dir)` (lines 124-141): a falsy `dir` (null or the empty
string) returns at once; otherwise backslashes are normalized, the string is
split on slashes, and the prefix walk runs. -/
def checkDirExists : Option Str → FileSystem → FileSystem × List Effect
  | none, fs => (fs, [])
  | some d, fs =>
    if d.isEmpty then (fs, [])
    else cdeLoop (splitSlash (normBS d)) 0 [] fs

/-- JS string coercion of the `directory` value used in `dir + '/' + name`. -/
def jsStr : Option Str → Str
  | some s => s
  | none => ['n', 'u', 'l', 'l']

/-- `isEnabled()` (lines 32-34): listeners for both `save` and `read` exist,
or `directory` is not null. -/
def isEnabled (st : FileStorage) : Bool :=
  (st.saveHandler.isSome && st.readHandler.isSome) || st.directory.isSome

/-- Outcome of one operation: the updated store and filesystem, the value the
caller's callback was invoked with (`none` when it was never invoked, for
`saveFile` outcomes), and the trace of external effects. -/
structure OpResult (α : Type) where
  store : FileStorage
  fs : FileSystem
  callback : α
  effects : List Effect

/-- `saveFile(filename, contents, callback)` (lines 42-69).  The callback is
optional; its value field is `none` when no callback was supplied (and hence
none was invoked), otherwise `some` of the error-or-null it received. -/
def saveFile (st : FileStorage) (fs : FileSystem) (filename : Str)
    (contents : Contents) (hasCb : Bool) : OpResult (Option (Option JsError)) :=
  if !(isEnabled st) then
    OpResult.mk st fs (if hasCb then some (some .notEnabled) else none) []
  else
    let bytes := toBytes contents
    match st.saveHandler with
    | some h =>
      OpResult.mk st fs (if hasCb then some (h filename bytes) else none)
        [.emitSave filename bytes]
    | none =>
      let cd := checkDirExists st.directory fs
      let st' := FileStorage.mk st.directory true st.saveHandler st.readHandler
      let wpath := jsStr st.directory ++ '/' :: filename
      let w := writeFileFS cd.1 wpath bytes
      OpResult.mk st' w.1 (if hasCb then some w.2 else none)
        (cd.2 ++ [.fsWrite wpath bytes])

/-- `readFile(filename, callback)` (lines 88-100): the callback is mandatory
and receives an error or the byte contents. -/
def readFile (st : FileStorage) (fs : FileSystem) (filename : Str) :
    OpResult (Except JsError Bytes) :=
  if !(isEnabled st) then
    OpResult.mk st fs (.error .notEnabled) []
  else
    match st.readHandler with
    | some h => OpResult.mk st fs (h filename) [.emitRead filename]
    | none =>
      let rpath := jsStr st.directory ++ '/' :: filename
      OpResult.mk st fs (readFileFS fs rpath) [.fsRead rpath]

/-- The per-file response object built by `readFiles` (lines 110-119): the
filename together with either an `error` or a `contents` property. -/
structure ReadItem where
  filename : Str
  error : Option JsError
  contents : Option Bytes
deriving DecidableEq

/-- Lines 111-117: build the response object from a `readFile` outcome. -/
def mkReadItem (n : Str) : Except JsError Bytes → ReadItem
  | .error e => ReadItem.mk n (some e) none
  | .ok b => ReadItem.mk n none (some b)

/-- `Async.map` with sequential completion order: the final callback gets the
first per-item error (or null) and the per-item values in input order. -/
def asyncMapLoop {α β : Type} (f : α → Option JsError × β) :
    List α → Option JsError × List β
  | [] => (none, [])
  | a :: rest =>
    let r := f a
    let rr := asyncMapLoop f rest
    ((r.1 <|> rr.1), r.2 :: rr.2)

/-- `readFiles(filenames, callback)` (lines 107-122): map every name through
`readFile`, always completing each item with a null error and the response
object. -/
def readFiles (st : FileStorage) (fs : FileSystem) (names : List Str) :
    Option JsError × List ReadItem :=
  asyncMapLoop (fun n => (none, mkReadItem n (readFile st fs n).callback)) names

/-- Accumulated outcome of running `saveFile` on each entry of a batch:
final states, the per-entry callback errors in entry order, and the
concatenated effect traces. -/
structure BatchOut where
  store : FileStorage
  fs : FileSystem
  errs : List (Option JsError)
  effects : List Effect

/-- The `Async.each` iteration of `saveFiles` (lines 78-80) with sequential
completion order: each entry is saved with `self.saveFile(filename,
files[filename], cb)`. -/
def saveFilesLoop : FileStorage → FileSystem → List (Str × Contents) → BatchOut
  | st, fs, [] => BatchOut.mk st fs [] []
  | st, fs, (n, c) :: rest =>
    let r := saveFile st fs n c true
    let b := saveFilesLoop r.store r.fs rest
    BatchOut.mk b.store b.fs (r.callback.getD none :: b.errs) (r.effects ++ b.effects)

/-- Final outcome of `saveFiles`: states, the value the caller's callback was
invoked with (`none` when no callback was supplied), and the effect trace. -/
structure SaveFilesOut where
  store : FileStorage
  fs : FileSystem
  result : Option (Option JsError)
  effects : List Effect

/-- `saveFiles(files, callback)` (lines 76-81): `Async.each` over the keys;
the aggregate callback receives the first per-entry error by completion
order, or null when every save succeeded. -/
def saveFiles (st : FileStorage) (fs : FileSystem) (files : List (Str × Contents))
    (hasCb : Bool) : SaveFilesOut :=
  let b := saveFilesLoop st fs files
  SaveFilesOut.mk b.store b.fs
    (if hasCb then some ((b.errs.filterMap id).head?) else none) b.effects

/-- The directory existence/creation walk, as seen in an effect trace. -/
def isWalkEffect : Effect → Bool
  | .fsExists _ => true
  | .fsMkdir _ _ => true
  | _ => false

/-- The directories created during a trace, with their modes, keyed by their
resolved paths, in creation order. -/
def createdOf (effs : List Effect) : List (Path × Nat) :=
  effs.filterMap (fun e =>
    match e with
    | .fsMkdir p m => some (parsePath p, m)
    | _ => none)

/-- The nonempty prefixes of `base ++ segs` that strictly extend `base`, in
increasing order. -/
def prefixesFrom (base : Path) : List Str → List Path
  | [] => []
  | s :: rest => (base ++ [s]) :: prefixesFrom (base ++ [s]) rest

/-- A well-formed directory string: after backslash normalization, splitting
on slashes yields no empty component, except possibly a single leading one
(an absolute path). -/
def wfDir (d : Str) : Bool :=
  (splitSlash (normBS d)).all (fun s => !s.isEmpty) ||
    (match splitSlash (normBS d) with
     | [] :: rest => rest.all (fun s => !s.isEmpty)
     | _ => false)

/-- A concrete save handler used by concrete instantiations: it reports an
arbitrary distinguishable error value. -/
def hSave : SaveHandler := fun _ b => some (.custom (7 + b.length))

/-- A concrete read handler used by concrete instantiations. -/
def hRead : ReadHandler := fun n => .ok (n.map Char.toNat)

/- ### Claim theorems -/

/-- `asyncMapLoop` with an item function that never reports an error
completes with a null aggregate error and the mapped values in input order. -/
theorem asyncMapLoop_of_no_error {α β : Type} (f : α → Option JsError × β)
    (hf : ∀ a, (f a).1 = none) (l : List α) :
    asyncMapLoop f l = (none, l.map (fun a => (f a).2)) := by
  induction l with
  | nil => rfl
  | cons a rest ih => simp [asyncMapLoop, hf a, ih]

/-- When the first entry of `filterMap id` is `some er`, the list splits as a
block of `none`s followed by `some er`. -/
theorem filterMap_id_head_eq_some {l : List (Option JsError)} {er : JsError}
    (h : (l.filterMap id).head? = some er) :
    ∃ l1 l2, l = l1 ++ some er :: l2 ∧ ∀ x ∈ l1, x = none := by
  induction l with
  | nil => simp at h
  | cons a rest ih =>
    cases a with
    | none =>
      have hstep : List.filterMap id (none :: rest) = List.filterMap id rest := rfl
      rw [hstep] at h
      obtain ⟨l1, l2, hl, hall⟩ := ih h
      refine ⟨none :: l1, l2, by simp [hl], ?_⟩
      intro x hx
      rcases List.mem_cons.mp hx with hx | hx
      · exact hx
      · exact hall x hx
    | some e =>
      have hstep : List.filterMap id (some e :: rest) = e :: List.filterMap id rest := rfl
      rw [hstep] at h
      simp only [List.head?_cons, Option.some.injEq] at h
      exact ⟨[], rest, by simp [h], by simp⟩

/-- Claim C3: `isEnabled()` returns true exactly when a directory is
configured or both a save handler and a read handler are registered; with no
directory, registering only one of the two handlers leaves the store
disabled.  (`isEnabled` is a pure function of the store state: it takes no
filesystem argument and returns only a boolean, so it has no side effects by
construction.) -/
theorem c3_isEnabled_iff (st : FileStorage) :
    (isEnabled st = true ↔
      (st.saveHandler.isSome = true ∧ st.readHandler.isSome = true) ∨
        st.directory.isSome = true) ∧
    (st.directory = none → st.saveHandler = none ∨ st.readHandler = none →
      isEnabled st = false) := by
  constructor
  · simp [isEnabled]
  · intro hd h
    rcases h with h | h <;> simp [isEnabled, hd, h]

/-- Witness for C3: a store with only a save handler and no directory is not
enabled. -/
theorem c3_witness :
    isEnabled (FileStorage.mk none false (some (fun _ _ => none)) none) = false :=
  (c3_isEnabled_iff (FileStorage.mk none false (some (fun _ _ => none)) none)).2
    rfl (Or.inr rfl)

/-- Claim C1: on a store whose directory is null and which lacks a save
handler or a read handler (so `isEnabled()` is false), `saveFile` (with a
callback) and `readFile` invoke the callback with the not-enabled error,
leave the store and the filesystem unchanged, and perform no filesystem call
and no handler dispatch (empty effect trace). -/
theorem c1_disabled_fails_fast (st : FileStorage) (fs : FileSystem)
    (n m : Str) (c : Contents)
    (hd : st.directory = none)
    (hh : st.saveHandler = none ∨ st.readHandler = none) :
    (saveFile st fs n c true).callback = some (some JsError.notEnabled) ∧
    (saveFile st fs n c true).store = st ∧
    (saveFile st fs n c true).fs = fs ∧
    (saveFile st fs n c true).effects = [] ∧
    (readFile st fs m).callback = Except.error JsError.notEnabled ∧
    (readFile st fs m).store = st ∧
    (readFile st fs m).fs = fs ∧
    (readFile st fs m).effects = [] := by
  have he : isEnabled st = false := by
    rcases hh with h | h <;> simp [isEnabled, hd, h]
  simp [saveFile, readFile, he]

/-- Witness for C1 at a fully unconfigured store. -/
theorem c1_witness :
    (saveFile (FileStorage.mk none false none none) (FileSystem.mk [] [])
        ['a'] (.buf []) true).callback = some (some JsError.notEnabled) ∧
    (saveFile (FileStorage.mk none false none none) (FileSystem.mk [] [])
        ['a'] (.buf []) true).store = FileStorage.mk none false none none ∧
    (saveFile (FileStorage.mk none false none none) (FileSystem.mk [] [])
        ['a'] (.buf []) true).fs = FileSystem.mk [] [] ∧
    (saveFile (FileStorage.mk none false none none) (FileSystem.mk [] [])
        ['a'] (.buf []) true).effects = [] ∧
    (readFile (FileStorage.mk none false none none) (FileSystem.mk [] [])
        ['b']).callback = Except.error JsError.notEnabled ∧
    (readFile (FileStorage.mk none false none none) (FileSystem.mk [] [])
        ['b']).store = FileStorage.mk none false none none ∧
    (readFile (FileStorage.mk none false none none) (FileSystem.mk [] [])
        ['b']).fs = FileSystem.mk [] [] ∧
    (readFile (FileStorage.mk none false none none) (FileSystem.mk [] [])
        ['b']).effects = [] :=
  c1_disabled_fails_fast (FileStorage.mk none false none none)
    (FileSystem.mk [] []) ['a'] ['b'] (.buf []) rfl (Or.inl rfl)

/-- Claim C10: `saveFile` on a disabled store with no callback argument
returns silently: the callback value field is `none` (no callback was
invoked, so no error is reported through any channel), the store state and
the filesystem are unchanged, and no effect is performed. -/
theorem c10_disabled_no_callback_silent (st : FileStorage) (fs : FileSystem)
    (n : Str) (c : Contents) (he : isEnabled st = false) :
    (saveFile st fs n c false).callback = none ∧
    (saveFile st fs n c false).store = st ∧
    (saveFile st fs n c false).fs = fs ∧
    (saveFile st fs n c false).effects = [] := by
  simp [saveFile, he]

/-- Witness for C10 at a fully unconfigured store. -/
theorem c10_witness :
    (saveFile (FileStorage.mk none true none none) (FileSystem.mk [] [])
        ['x'] (.buf [7]) false).callback = none ∧
    (saveFile (FileStorage.mk none true none none) (FileSystem.mk [] [])
        ['x'] (.buf [7]) false).store = FileStorage.mk none true none none ∧
    (saveFile (FileStorage.mk none true none none) (FileSystem.mk [] [])
        ['x'] (.buf [7]) false).fs = FileSystem.mk [] [] ∧
    (saveFile (FileStorage.mk none true none none) (FileSystem.mk [] [])
        ['x'] (.buf [7]) false).effects = [] :=
  c10_disabled_no_callback_silent (FileStorage.mk none true none none)
    (FileSystem.mk [] []) ['x'] (.buf [7]) rfl

/-- Claim C8: on an enabled store with a save handler registered, `saveFile`
delegates entirely — the store and the filesystem are untouched, the only
effect is the `save` emission carrying the name and the byte contents
(strings having been converted to UTF-8 bytes first), and the error value
the handler supplies is handed to the caller verbatim. -/
theorem c8_save_handler_delegates (st : FileStorage) (fs : FileSystem)
    (n : Str) (c : Contents) (cb : Bool) (h : SaveHandler)
    (hen : isEnabled st = true) (hsh : st.saveHandler = some h) :
    (saveFile st fs n c cb).store = st ∧
    (saveFile st fs n c cb).fs = fs ∧
    (saveFile st fs n c cb).effects = [Effect.emitSave n (toBytes c)] ∧
    (saveFile st fs n c cb).callback
      = (if cb then some (h n (toBytes c)) else none) ∧
    (∀ s : Str, toBytes (Contents.str s) = utf8Bytes s) := by
  refine ⟨?_, ?_, ?_, ?_, fun s => rfl⟩ <;> simp [saveFile, hen, hsh]

/-- Witness for C8: a directory-enabled store with the concrete handler
`hSave`; the handler's error value arrives verbatim. -/
theorem c8_witness :
    (saveFile (FileStorage.mk (some ['d']) false (some hSave) none)
        (FileSystem.mk [] []) ['a'] (.buf [1]) true).store
      = FileStorage.mk (some ['d']) false (some hSave) none ∧
    (saveFile (FileStorage.mk (some ['d']) false (some hSave) none)
        (FileSystem.mk [] []) ['a'] (.buf [1]) true).fs = FileSystem.mk [] [] ∧
    (saveFile (FileStorage.mk (some ['d']) false (some hSave) none)
        (FileSystem.mk [] []) ['a'] (.buf [1]) true).effects
      = [Effect.emitSave ['a'] (toBytes (.buf [1]))] ∧
    (saveFile (FileStorage.mk (some ['d']) false (some hSave) none)
        (FileSystem.mk [] []) ['a'] (.buf [1]) true).callback
      = (if true then some (hSave ['a'] (toBytes (.buf [1]))) else none) :=
  have t := c8_save_handler_delegates
    (FileStorage.mk (some ['d']) false (some hSave) none)
    (FileSystem.mk [] []) ['a'] (.buf [1]) true hSave rfl rfl
  ⟨t.1, t.2.1, t.2.2.1, t.2.2.2.1⟩

/-- Claim C9: routing is decided per operation by that operation's own
handler presence.  With a directory and only a save handler, `saveFile`
emits to the handler (no filesystem change) while `readFile` performs a
local filesystem read; symmetrically, with only a read handler, `readFile`
emits to the handler while `saveFile` runs the local directory walk and
write. -/
theorem c9_per_operation_routing (d : Str) (dc : Bool) (fs : FileSystem)
    (n : Str) (b : Bytes) (h : SaveHandler) (g : ReadHandler) :
    (saveFile (FileStorage.mk (some d) dc (some h) none) fs n (.buf b) true).effects
      = [Effect.emitSave n b] ∧
    (saveFile (FileStorage.mk (some d) dc (some h) none) fs n (.buf b) true).fs = fs ∧
    (readFile (FileStorage.mk (some d) dc (some h) none) fs n).effects
      = [Effect.fsRead (d ++ '/' :: n)] ∧
    (readFile (FileStorage.mk (some d) dc (some h) none) fs n).callback
      = readFileFS fs (d ++ '/' :: n) ∧
    (readFile (FileStorage.mk (some d) dc none (some g)) fs n).effects
      = [Effect.emitRead n] ∧
    (readFile (FileStorage.mk (some d) dc none (some g)) fs n).callback = g n ∧
    (saveFile (FileStorage.mk (some d) dc none (some g)) fs n (.buf b) true).effects
      = (checkDirExists (some d) fs).2 ++ [Effect.fsWrite (d ++ '/' :: n) b] := by
  refine ⟨?_, ?_, ?_, ?_, ?_, ?_, ?_⟩ <;>
    simp [saveFile, readFile, isEnabled, jsStr, toBytes]

/-- Claim C5: `readFiles` completes with a null aggregate error and a result
list that is exactly the input names mapped, in input order, to their
response objects; each response carries the name together with either the
contents or that element's error, exclusively. -/
theorem c5_readFiles_ordered_total (st : FileStorage) (fs : FileSystem)
    (names : List Str) (_hen : isEnabled st = true) :
    (readFiles st fs names).1 = none ∧
    (readFiles st fs names).2
      = names.map (fun n => mkReadItem n (readFile st fs n).callback) ∧
    (readFiles st fs names).2.length = names.length ∧
    (∀ it ∈ (readFiles st fs names).2,
      (it.error.isSome != it.contents.isSome) = true) := by
  have h := asyncMapLoop_of_no_error
    (fun n => (none, mkReadItem n (readFile st fs n).callback)) (fun _ => rfl) names
  refine ⟨?_, ?_, ?_, ?_⟩
  · simp [readFiles, h]
  · simp [readFiles, h]
  · simp [readFiles, h]
  · intro it hit
    simp only [readFiles, h] at hit
    obtain ⟨n, _, rfl⟩ := List.mem_map.mp hit
    cases (readFile st fs n).callback <;> simp [mkReadItem]

/-- Witness for C5 on a directory-enabled store with two names. -/
theorem c5_witness :
    (readFiles (FileStorage.mk (some ['d']) false none none)
        (FileSystem.mk [] []) [['a'], ['b']]).1 = none ∧
    (readFiles (FileStorage.mk (some ['d']) false none none)
        (FileSystem.mk [] []) [['a'], ['b']]).2.length = [['a'], ['b']].length :=
  have t := c5_readFiles_ordered_total (FileStorage.mk (some ['d']) false none none)
    (FileSystem.mk [] []) [['a'], ['b']] rfl
  ⟨t.1, t.2.2.1⟩

/-- Claim C6: `saveFiles` applies `saveFile` to each entry (that is how
`saveFilesLoop` is built) and the aggregate callback receives null exactly
when every individual save succeeded; when it receives an error, that error
is the first one by completion order — every entry completed before it
succeeded. -/
theorem c6_saveFiles_first_error (st : FileStorage) (fs : FileSystem)
    (files : List (Str × Contents)) :
    ((saveFiles st fs files true).result = some none ↔
      ∀ e ∈ (saveFilesLoop st fs files).errs, e = none) ∧
    (∀ er : JsError, (saveFiles st fs files true).result = some (some er) →
      ∃ l1 l2, (saveFilesLoop st fs files).errs = l1 ++ some er :: l2 ∧
        ∀ x ∈ l1, x = none) := by
  constructor
  · simp only [saveFiles, if_pos, Option.some.injEq]
    rw [List.head?_eq_none_iff, List.filterMap_eq_nil_iff]
    simp
  · intro er h
    simp only [saveFiles, if_pos, Option.some.injEq] at h
    exact filterMap_id_head_eq_some h

/-- Witness for C6: both saves to a fresh directory succeed, so the
aggregate callback receives null. -/
theorem c6_witness :
    (saveFiles (FileStorage.mk (some ['d']) false none none)
        (FileSystem.mk [] []) [(['a'], .buf [1]), (['b'], .buf [2])] true).result
      = some none :=
  (c6_saveFiles_first_error (FileStorage.mk (some ['d']) false none none)
    (FileSystem.mk [] []) [(['a'], .buf [1]), (['b'], .buf [2])]).1.mpr (by decide)

/- ### Path and walk lemmas -/

/-- `splitSlash` never produces the empty list. -/
theorem splitSlash_ne_nil (l : Str) : splitSlash l ≠ [] := by
  cases l with
  | nil => simp [splitSlash]
  | cons c rest =>
    by_cases hc : c = '/'
    · simp [splitSlash, hc]
    · simp only [splitSlash, hc, if_false]
      cases h : splitSlash rest <;> simp

/-- Splitting distributes over concatenation at a slash. -/
theorem splitSlash_append (a b : Str) :
    splitSlash (a ++ '/' :: b) = splitSlash a ++ splitSlash b := by
  induction a with
  | nil => simp [splitSlash]
  | cons c a ih =>
    by_cases hc : c = '/'
    · subst hc
      simp [splitSlash, ih]
    · cases h : splitSlash a with
      | nil => exact absurd h (splitSlash_ne_nil a)
      | cons s ss =>
        simp only [List.cons_append, splitSlash, hc, if_false, List.append_eq,
          ih, h, List.cons_append]

/-- No component produced by `splitSlash` contains a slash. -/
theorem mem_splitSlash_no_slash (l : Str) : ∀ x ∈ splitSlash l, '/' ∉ x := by
  induction l with
  | nil =>
    intro x hx
    simp [splitSlash] at hx
    simp [hx]
  | cons c rest ih =>
    intro x hx
    by_cases hc : c = '/'
    · subst hc
      simp only [splitSlash, if_pos rfl] at hx
      rcases List.mem_cons.mp hx with rfl | hx
      · simp
      · exact ih x hx
    · simp only [splitSlash, hc, if_false] at hx
      cases h : splitSlash rest with
      | nil => exact absurd h (splitSlash_ne_nil rest)
      | cons s ss =>
        rw [h] at hx
        rcases List.mem_cons.mp hx with rfl | hx
        · intro hmem
          rcases List.mem_cons.mp hmem with h1 | h1
          · exact hc h1.symm
          · exact ih s (by rw [h]; exact List.mem_cons_self s ss) h1
        · exact ih x (by rw [h]; exact List.mem_cons_of_mem s hx)

/-- A slash-free string is a single component. -/
theorem splitSlash_no_slash (s : Str) (h : '/' ∉ s) : splitSlash s = [s] := by
  induction s with
  | nil => rfl
  | cons c rest ih =>
    have hc : c ≠ '/' := fun hcc => h (by subst hcc; exact List.mem_cons_self _ _)
    have hrest : '/' ∉ rest := fun hm => h (List.mem_cons_of_mem c hm)
    simp [splitSlash, hc, ih hrest]

/-- Path resolution distributes over concatenation at a slash. -/
theorem parsePath_append (a b : Str) :
    parsePath (a ++ '/' :: b) = parsePath a ++ parsePath b := by
  simp [parsePath, splitSlash_append, List.filter_append]

/-- A nonempty slash-free string resolves to itself as single component. -/
theorem parsePath_single (s : Str) (h1 : s ≠ []) (h2 : '/' ∉ s) :
    parsePath s = [s] := by
  cases s with
  | nil => exact absurd rfl h1
  | cons c r => simp [parsePath, splitSlash_no_slash _ h2, List.filter]

/-- A backslash-free string is untouched by normalization. -/
theorem normBS_no_bs (d : Str) (h : '\\' ∉ d) : normBS d = d := by
  induction d with
  | nil => rfl
  | cons c r ih =>
    have hc : c ≠ '\\' := fun hcc => h (by subst hcc; exact List.mem_cons_self _ _)
    have hr : '\\' ∉ r := fun hm => h (List.mem_cons_of_mem c hm)
    simp [normBS, hc] at ih ⊢
    exact ih hr

/-- Backslash normalization is idempotent. -/
theorem normBS_idem (d : Str) : normBS (normBS d) = normBS d := by
  induction d with
  | nil => rfl
  | cons c r ih =>
    by_cases hc : c = '\\' <;> simp [normBS, hc] at ih ⊢ <;> exact ih

/-- The freshly created directory exists afterwards. -/
theorem nodeExists_mkdir_self (fs : FileSystem) (s : Str) (m : Nat) :
    (mkdirSync fs s m).nodeExists (parsePath s) = true := by
  simp [mkdirSync, FileSystem.nodeExists, FileSystem.dirExists, lookupP]

/-- Creating a directory does not affect the existence of other paths. -/
theorem nodeExists_mkdir_ne (fs : FileSystem) (s : Str) (m : Nat) (q : Path)
    (h : q ≠ parsePath s) :
    (mkdirSync fs s m).nodeExists q = fs.nodeExists q := by
  simp [mkdirSync, FileSystem.nodeExists, FileSystem.dirExists, lookupP, h]

/-- Creating a directory leaves the regular files untouched. -/
theorem files_mkdir (fs : FileSystem) (s : Str) (m : Nat) :
    (mkdirSync fs s m).files = fs.files := rfl

/-- Every listed prefix strictly extends the base. -/
theorem mem_prefixesFrom_extends (segs : List Str) (base q : Path)
    (h : q ∈ prefixesFrom base segs) : base.length < q.length := by
  induction segs generalizing base with
  | nil => simp [prefixesFrom] at h
  | cons s rest ih =>
    rcases List.mem_cons.mp h with rfl | h
    · simp
    · have := ih (base ++ [s]) h
      simp only [List.length_append, List.length_cons, List.length_nil] at this
      omega

/-- Every listed prefix differs from the base. -/
theorem mem_prefixesFrom_ne (segs : List Str) (base q : Path)
    (h : q ∈ prefixesFrom base segs) : q ≠ base := by
  intro hq
  have := mem_prefixesFrom_extends segs base q h
  simp [hq] at this

theorem parsePath_nil : parsePath [] = [] := rfl

theorem parsePath_root : parsePath ['/'] = [] := rfl

theorem createdOf_fsExists (p : Str) (l : List Effect) :
    createdOf (.fsExists p :: l) = createdOf l := rfl

theorem createdOf_fsMkdir (p : Str) (m : Nat) (l : List Effect) :
    createdOf (.fsMkdir p m :: l) = (parsePath p, m) :: createdOf l := rfl

/-- One step of the walk when the prefix already exists. -/
theorem cdeLoop_cons_exists (seg : Str) (rest : List Str) (idx : Nat)
    (path : Str) (fs : FileSystem)
    (hcond : (idx == 0 && seg.isEmpty) = false)
    (hex : existsSync fs (path ++ (if path.isEmpty then [] else ['/']) ++ seg) = true) :
    cdeLoop (seg :: rest) idx path fs
      = ((cdeLoop rest (idx + 1)
            (path ++ (if path.isEmpty then [] else ['/']) ++ seg) fs).1,
         .fsExists (path ++ (if path.isEmpty then [] else ['/']) ++ seg)
           :: (cdeLoop rest (idx + 1)
                (path ++ (if path.isEmpty then [] else ['/']) ++ seg) fs).2) := by
  have hex' : existsSync fs (path ++ ((if path = [] then [] else ['/']) ++ seg))
      = true := by simpa using hex
  simp [cdeLoop, hcond, hex']

/-- One step of the walk when the prefix is missing: it is created. -/
theorem cdeLoop_cons_missing (seg : Str) (rest : List Str) (idx : Nat)
    (path : Str) (fs : FileSystem)
    (hcond : (idx == 0 && seg.isEmpty) = false)
    (hex : existsSync fs (path ++ (if path.isEmpty then [] else ['/']) ++ seg) = false) :
    cdeLoop (seg :: rest) idx path fs
      = ((cdeLoop rest (idx + 1)
            (path ++ (if path.isEmpty then [] else ['/']) ++ seg)
            (mkdirSync fs (path ++ (if path.isEmpty then [] else ['/']) ++ seg) 0o750)).1,
         .fsExists (path ++ (if path.isEmpty then [] else ['/']) ++ seg)
           :: .fsMkdir (path ++ (if path.isEmpty then [] else ['/']) ++ seg) 0o750
           :: (cdeLoop rest (idx + 1)
                (path ++ (if path.isEmpty then [] else ['/']) ++ seg)
                (mkdirSync fs (path ++ (if path.isEmpty then [] else ['/']) ++ seg) 0o750)).2) := by
  have hex' : existsSync fs (path ++ ((if path = [] then [] else ['/']) ++ seg))
      = false := by simpa using hex
  simp [cdeLoop, hcond, hex']

/-- Invariant of the `forEach` walk over nonempty slash-free segments: it
creates, with mode `0o750`, exactly the listed prefixes that are missing
from the filesystem (in walk order), it never touches regular files, and
afterwards a path exists exactly when it existed before or is one of the
listed prefixes. -/
theorem cdeLoop_spec (segs : List Str) (idx : Nat) (path : Str) (fs : FileSystem)
    (hseg : ∀ s ∈ segs, s ≠ [] ∧ '/' ∉ s) :
    createdOf (cdeLoop segs idx path fs).2
      = ((prefixesFrom (parsePath path) segs).filter
          (fun q => !(fs.nodeExists q))).map (fun q => (q, 0o750)) ∧
    (cdeLoop segs idx path fs).1.files = fs.files ∧
    (∀ q : Path, (cdeLoop segs idx path fs).1.nodeExists q = true ↔
      (fs.nodeExists q = true ∨ q ∈ prefixesFrom (parsePath path) segs)) := by
  induction segs generalizing idx path fs with
  | nil => simp [cdeLoop, prefixesFrom, createdOf]
  | cons seg rest ih =>
    obtain ⟨hs1, hs2⟩ := hseg seg (List.mem_cons_self seg rest)
    have hrest : ∀ s ∈ rest, s ≠ [] ∧ '/' ∉ s :=
      fun s hs => hseg s (List.mem_cons_of_mem seg hs)
    have hcond : (idx == 0 && seg.isEmpty) = false := by
      cases seg with
      | nil => exact absurd rfl hs1
      | cons a b => simp
    have hparse : parsePath (path ++ (if path.isEmpty then [] else ['/']) ++ seg)
        = parsePath path ++ [seg] := by
      cases path with
      | nil => simpa [parsePath_nil] using parsePath_single seg hs1 hs2
      | cons a b =>
        have h1 : ((a :: b) ++ (if (a :: b).isEmpty then [] else ['/']) ++ seg)
            = (a :: b) ++ '/' :: seg := by simp
        rw [h1, parsePath_append, parsePath_single seg hs1 hs2]
    cases hex : existsSync fs (path ++ (if path.isEmpty then [] else ['/']) ++ seg) with
    | true =>
      rw [cdeLoop_cons_exists seg rest idx path fs hcond hex]
      obtain ⟨ihc, ihf, ihe⟩ :=
        ih (idx + 1) (path ++ (if path.isEmpty then [] else ['/']) ++ seg) fs hrest
      rw [hparse] at ihc ihe
      have hexQ : fs.nodeExists (parsePath path ++ [seg]) = true := by
        rw [← hparse]; exact hex
      refine ⟨?_, ihf, ?_⟩
      · rw [createdOf_fsExists, ihc]
        simp only [prefixesFrom, List.filter_cons, hexQ, Bool.not_true]
        rfl
      · intro q
        rw [ihe q]
        simp only [prefixesFrom, List.mem_cons]
        constructor
        · rintro (hq | hq)
          · exact Or.inl hq
          · exact Or.inr (Or.inr hq)
        · rintro (hq | hq | hq)
          · exact Or.inl hq
          · subst hq; exact Or.inl hexQ
          · exact Or.inr hq
    | false =>
      rw [cdeLoop_cons_missing seg rest idx path fs hcond hex]
      obtain ⟨ihc, ihf, ihe⟩ :=
        ih (idx + 1) (path ++ (if path.isEmpty then [] else ['/']) ++ seg)
          (mkdirSync fs (path ++ (if path.isEmpty then [] else ['/']) ++ seg) 0o750) hrest
      rw [hparse] at ihc ihe
      have hexQ : fs.nodeExists (parsePath path ++ [seg]) = false := by
        rw [← hparse]; exact hex
      have hfilter : (prefixesFrom (parsePath path ++ [seg]) rest).filter
            (fun q => !((mkdirSync fs
              (path ++ (if path.isEmpty then [] else ['/']) ++ seg) 0o750).nodeExists q))
          = (prefixesFrom (parsePath path ++ [seg]) rest).filter
            (fun q => !(fs.nodeExists q)) := by
        apply List.filter_congr
        intro q hq
        rw [nodeExists_mkdir_ne fs _ 0o750 q]
        rw [hparse]
        exact mem_prefixesFrom_ne rest (parsePath path ++ [seg]) q hq
      refine ⟨?_, ?_, ?_⟩
      · rw [createdOf_fsExists, createdOf_fsMkdir, ihc, hfilter, hparse]
        simp only [prefixesFrom, List.filter_cons, hexQ, Bool.not_false, if_pos,
          List.map_cons]
      · rw [ihf, files_mkdir]
      · intro q
        rw [ihe q]
        by_cases hq : q = parsePath path ++ [seg]
        · subst hq
          have hself : (mkdirSync fs
                (path ++ (if path.isEmpty then [] else ['/']) ++ seg) 0o750).nodeExists
                (parsePath path ++ [seg]) = true := by
            rw [← hparse]; exact nodeExists_mkdir_self fs _ 0o750
          rw [hself]
          simp [prefixesFrom]
        · rw [show ((mkdirSync fs
              (path ++ (if path.isEmpty then [] else ['/']) ++ seg) 0o750).nodeExists q)
              = fs.nodeExists q from
              nodeExists_mkdir_ne fs _ 0o750 q (by rw [hparse]; exact hq)]
          simp only [prefixesFrom, List.mem_cons]
          constructor
          · rintro (h | h)
            · exact Or.inl h
            · exact Or.inr (Or.inr h)
          · rintro (h | h | h)
            · exact Or.inl h
            · exact absurd h hq
            · exact Or.inr h

/-- The first iteration of the walk on an absolute path: the leading empty
segment resolves to the root, which always exists. -/
theorem cdeLoop_cons_abs (rest : List Str) (fs : FileSystem) :
    cdeLoop ([] :: rest) 0 [] fs
      = ((cdeLoop rest 1 ['/'] fs).1,
         .fsExists ['/'] :: (cdeLoop rest 1 ['/'] fs).2) := by
  have hex : existsSync fs ['/'] = true := by
    simp [existsSync, parsePath_root, FileSystem.nodeExists, FileSystem.dirExists]
  simp [cdeLoop, hex]

/-- The full extension is one of the listed prefixes. -/
theorem append_mem_prefixesFrom (l : List Str) (base : Path) (h : l ≠ []) :
    base ++ l ∈ prefixesFrom base l := by
  induction l generalizing base with
  | nil => exact absurd rfl h
  | cons s rest ih =>
    cases rest with
    | nil => simp [prefixesFrom]
    | cons t ts =>
      refine List.mem_cons_of_mem _ ?_
      rw [show base ++ s :: t :: ts = (base ++ [s]) ++ t :: ts by simp]
      exact ih (base ++ [s]) (by simp)

/-- A nonempty resolved path is the last of its own prefixes. -/
theorem self_mem_prefixesFrom (l : Path) (h : l ≠ []) :
    l ∈ prefixesFrom [] l := by
  simpa using append_mem_prefixesFrom l [] h

/-- With no regular files, node existence is directory existence. -/
theorem nodeExists_of_files_nil (fs : FileSystem) (q : Path) (h : fs.files = []) :
    fs.nodeExists q = fs.dirExists q := by
  simp [FileSystem.nodeExists, h, lookupP]

/-- Specification of `checkDirExists` on a well-formed nonempty directory
string: it creates exactly the missing resolved prefixes with mode `0o750`,
touches no files, and makes every resolved prefix exist. -/
theorem checkDirExists_spec (d : Str) (fs : FileSystem)
    (hwf : wfDir d = true) (hne : d ≠ []) :
    createdOf (checkDirExists (some d) fs).2
      = ((prefixesFrom [] (parsePath (normBS d))).filter
          (fun q => !(fs.nodeExists q))).map (fun q => (q, 0o750)) ∧
    (checkDirExists (some d) fs).1.files = fs.files ∧
    (∀ q : Path, (checkDirExists (some d) fs).1.nodeExists q = true ↔
      (fs.nodeExists q = true ∨ q ∈ prefixesFrom [] (parsePath (normBS d)))) := by
  have hdE : d.isEmpty = false := by
    cases d with
    | nil => exact absurd rfl hne
    | cons a b => rfl
  have hck : checkDirExists (some d) fs = cdeLoop (splitSlash (normBS d)) 0 [] fs := by
    simp [checkDirExists, hdE]
  rw [hck]
  have hnosl := mem_splitSlash_no_slash (normBS d)
  rw [wfDir] at hwf
  rcases (Bool.or_eq_true _ _).mp hwf with hall | habs
  · have hseg : ∀ s ∈ splitSlash (normBS d), s ≠ [] ∧ '/' ∉ s := by
      intro s hs
      refine ⟨?_, hnosl s hs⟩
      have := (List.all_eq_true.mp hall) s hs
      simpa using this
    have hfull : parsePath (normBS d) = splitSlash (normBS d) := by
      rw [parsePath]
      apply List.filter_eq_self.mpr
      intro s hs
      have := (List.all_eq_true.mp hall) s hs
      simpa using this
    have hmain := cdeLoop_spec (splitSlash (normBS d)) 0 [] fs hseg
    rw [parsePath_nil] at hmain
    rw [hfull]
    exact hmain
  · cases hsp : splitSlash (normBS d) with
    | nil => exact absurd hsp (splitSlash_ne_nil _)
    | cons x xs =>
      rw [hsp] at habs
      cases x with
      | cons a b => exact absurd habs Bool.false_ne_true
      | nil =>
        have habs' : xs.all (fun s => !s.isEmpty) = true := habs
        have hseg : ∀ s ∈ xs, s ≠ [] ∧ '/' ∉ s := by
          intro s hs
          refine ⟨?_, hnosl s (by rw [hsp]; exact List.mem_cons_of_mem _ hs)⟩
          have := (List.all_eq_true.mp habs') s hs
          simpa using this
        have hfull : parsePath (normBS d) = xs := by
          rw [parsePath, hsp]
          rw [show List.filter (fun x => !x.isEmpty) ([] :: xs)
              = List.filter (fun x => !x.isEmpty) xs by simp]
          apply List.filter_eq_self.mpr
          intro s hs
          have := (List.all_eq_true.mp habs') s hs
          simpa using this
        rw [cdeLoop_cons_abs, hfull]
        obtain ⟨h1, h2, h3⟩ := cdeLoop_spec xs 1 ['/'] fs hseg
        rw [parsePath_root] at h1 h3
        exact ⟨by rw [createdOf_fsExists, h1], h2, h3⟩

/-- Claim C7: the directory-creation helper normalizes backslashes (running
it on the normalized string is identical), creates exactly the resolved
prefix directories that do not yet exist, each with mode `0o750`, in walk
order from the root, and a second run against the resulting tree creates
nothing (idempotence). -/
theorem c7_checkDirExists_walk (d : Str) (fs : FileSystem)
    (hwf : wfDir d = true) (hne : d ≠ []) :
    checkDirExists (some d) fs = checkDirExists (some (normBS d)) fs ∧
    createdOf (checkDirExists (some d) fs).2
      = ((prefixesFrom [] (parsePath (normBS d))).filter
          (fun q => !(fs.nodeExists q))).map (fun q => (q, 0o750)) ∧
    createdOf (checkDirExists (some d) ((checkDirExists (some d) fs).1)).2 = [] := by
  obtain ⟨hc, _, he⟩ := checkDirExists_spec d fs hwf hne
  refine ⟨?_, hc, ?_⟩
  · have h1 : (normBS d).isEmpty = d.isEmpty := by
      cases d <;> simp [normBS]
    simp only [checkDirExists, h1, normBS_idem]
  · obtain ⟨hc2, _, _⟩ := checkDirExists_spec d ((checkDirExists (some d) fs).1) hwf hne
    rw [hc2]
    have hall : ∀ q ∈ prefixesFrom [] (parsePath (normBS d)),
        ¬((fun q => !((checkDirExists (some d) fs).1.nodeExists q)) q = true) := by
      intro q hq
      have := (he q).mpr (Or.inr hq)
      simp [this]
    rw [List.filter_eq_nil_iff.mpr hall]
    rfl

/-- Witness for C7: creating `/a/b/c` where `/a` already exists creates
exactly `/a/b` then `/a/b/c` with mode `0o750`, and a second run creates
nothing. -/
theorem c7_witness :
    createdOf (checkDirExists (some ['/', 'a', '/', 'b', '/', 'c'])
        (FileSystem.mk [([['a']], 0o755)] [])).2
      = [([['a'], ['b']], 0o750), ([['a'], ['b'], ['c']], 0o750)] ∧
    createdOf (checkDirExists (some ['/', 'a', '/', 'b', '/', 'c'])
        ((checkDirExists (some ['/', 'a', '/', 'b', '/', 'c'])
            (FileSystem.mk [([['a']], 0o755)] [])).1)).2 = [] :=
  have t := c7_checkDirExists_walk ['/', 'a', '/', 'b', '/', 'c']
    (FileSystem.mk [([['a']], 0o755)] []) (by decide) (by decide)
  ⟨t.2.1.trans (by decide), t.2.2⟩

/-- Claim C2: on a store with a (well-formed, backslash-free) directory and
no handlers, saving bytes `b` under a nonempty slash-free name `n` against a
filesystem holding no regular files succeeds, and reading `n` back from the
resulting store returns exactly `b`. -/
theorem c2_roundtrip (d n : Str) (b : Bytes) (dc : Bool) (fs : FileSystem)
    (hwf : wfDir d = true) (hbs : '\\' ∉ d) (hn1 : n ≠ []) (hn2 : '/' ∉ n)
    (hfiles : fs.files = []) :
    (saveFile (FileStorage.mk (some d) dc none none) fs n (.buf b) true).callback
      = some none ∧
    (readFile
        (saveFile (FileStorage.mk (some d) dc none none) fs n (.buf b) true).store
        (saveFile (FileStorage.mk (some d) dc none none) fs n (.buf b) true).fs
        n).callback = Except.ok b := by
  have hen : isEnabled (FileStorage.mk (some d) dc none none) = true := by
    simp [isEnabled]
  have hP : parsePath (d ++ '/' :: n) = parsePath d ++ [n] := by
    rw [parsePath_append, parsePath_single n hn1 hn2]
  have hdir : (checkDirExists (some d) fs).1.dirExists (parsePath d) = true := by
    rcases eq_or_ne d [] with rfl | hdne
    · simp [checkDirExists, FileSystem.dirExists, parsePath_nil]
    · obtain ⟨_, hfspec, hespec⟩ := checkDirExists_spec d fs hwf hdne
      have hfs1 : (checkDirExists (some d) fs).1.files = [] := by
        rw [hfspec, hfiles]
      rcases eq_or_ne (parsePath d) [] with hpd | hpd
      · simp [FileSystem.dirExists, hpd]
      · have hmem : parsePath d ∈ prefixesFrom [] (parsePath (normBS d)) := by
          rw [normBS_no_bs d hbs]
          exact self_mem_prefixesFrom (parsePath d) hpd
        have hnode := (hespec (parsePath d)).mpr (Or.inr hmem)
        rw [nodeExists_of_files_nil _ _ hfs1] at hnode
        exact hnode
  have hwrite : writeFileFS (checkDirExists (some d) fs).1 (d ++ '/' :: n) b
      = (FileSystem.mk (checkDirExists (some d) fs).1.dirs
          ((parsePath d ++ [n], b) :: (checkDirExists (some d) fs).1.files), none) := by
    have hne2 : (parsePath d ++ [n]).isEmpty = false := by simp
    simp [writeFileFS, hP, hne2, List.dropLast_concat, hdir]
  have hread : readFileFS (FileSystem.mk (checkDirExists (some d) fs).1.dirs
        ((parsePath d ++ [n], b) :: (checkDirExists (some d) fs).1.files))
        (d ++ '/' :: n) = Except.ok b := by
    simp [readFileFS, hP, lookupP]
  constructor
  · simp [saveFile, hen, jsStr, toBytes, hwrite]
  · simp [saveFile, readFile, hen, isEnabled, jsStr, toBytes, hwrite, hread]

/-- Witness for C2: a one-byte-name round-trip through directory `d`. -/
theorem c2_witness :
    (saveFile (FileStorage.mk (some ['d']) false none none) (FileSystem.mk [] [])
        ['a'] (.buf [1, 2]) true).callback = some none ∧
    (readFile
        (saveFile (FileStorage.mk (some ['d']) false none none) (FileSystem.mk [] [])
          ['a'] (.buf [1, 2]) true).store
        (saveFile (FileStorage.mk (some ['d']) false none none) (FileSystem.mk [] [])
          ['a'] (.buf [1, 2]) true).fs
        ['a']).callback = Except.ok [1, 2] :=
  c2_roundtrip ['d'] ['a'] [1, 2] false (FileSystem.mk [] [])
    (by decide) (by decide) (by decide) (by decide) rfl

/-- Claim C4 as stated is false on the code: after a first successful local
write (which sets the `_directoryCreated` mark), the next local `saveFile`
still performs the directory existence walk — its effect trace contains
walk effects, which the claimed "skip" would forbid. -/
theorem c4_counterexample :
    (saveFile (FileStorage.mk (some ['d']) false none none)
        (FileSystem.mk [] []) ['a'] (.buf [1]) true).callback = some none ∧
    (saveFile (FileStorage.mk (some ['d']) false none none)
        (FileSystem.mk [] []) ['a'] (.buf [1]) true).store.directoryCreated = true ∧
    (saveFile
        (saveFile (FileStorage.mk (some ['d']) false none none)
          (FileSystem.mk [] []) ['a'] (.buf [1]) true).store
        (saveFile (FileStorage.mk (some ['d']) false none none)
          (FileSystem.mk [] []) ['a'] (.buf [1]) true).fs
        ['b'] (.buf [2]) true).effects.filter isWalkEffect ≠ [] := by
  decide

/-- Amended C4: every local `saveFile` sets the directory-created mark and
reassigning the directory clears it, but the mark is never consulted — the
walk's effects occur on every local save, and the saved behaviour is
identical whatever the mark's prior value. -/
theorem c4_amended_mark_never_consulted (st : FileStorage) (fs : FileSystem)
    (n : Str) (b : Bytes) (cb v : Bool)
    (hen : isEnabled st = true) (hsh : st.saveHandler = none) :
    (saveFile st fs n (.buf b) cb).store.directoryCreated = true ∧
    (saveFile st fs n (.buf b) cb).effects
      = (checkDirExists st.directory fs).2
          ++ [Effect.fsWrite (jsStr st.directory ++ '/' :: n) b] ∧
    saveFile (FileStorage.mk st.directory v st.saveHandler st.readHandler) fs n (.buf b) cb
      = saveFile st fs n (.buf b) cb ∧
    (∀ d' : Option Str, (setDirectory st d').directoryCreated = false) := by
  have hdir : st.directory.isSome = true := by
    simpa [isEnabled, hsh] using hen
  refine ⟨?_, ?_, ?_, fun d' => rfl⟩ <;>
    simp [saveFile, isEnabled, hsh, hdir, toBytes]

/-- Witness for amended C4 on a concrete enabled handler-free store. -/
theorem c4_witness :
    (saveFile (FileStorage.mk (some ['e']) false none none)
        (FileSystem.mk [] []) ['a'] (.buf []) true).store.directoryCreated = true :=
  (c4_amended_mark_never_consulted (FileStorage.mk (some ['e']) false none none)
    (FileSystem.mk [] []) ['a'] [] true false rfl rfl).1

end NodeFileStorage
